import Mathlib

/-!
Verification of the real-time room broadcast layer of TasteThreads:
a shallow embedding of `src/api/redis_manager.py` (class
`RedisConnectionManager`), of the debug endpoint `debug_connections` in
`src/api/routers/rooms.py`, and of the WebSocket endpoint in
`src/api/routers/websocket.py`, together with theorems about the
embedded operations.

Modelling conventions:
* Python strings are lists of characters (`PyStr`).
* A WebSocket handle is an opaque identifier (`Nat`); a Python `set` of
  handles is a `Finset Nat`; the `active_connections` dict is an
  association list with the dict operations (first-match lookup,
  replace-or-append assignment, first-match deletion).
* The payloads passed to `broadcast_to_room` are JSON values; numbers
  are modelled as integers (floating point is outside the embedding).
  `json.dumps` / `json.loads` of the Python standard library are
  embedded as an executable printer/parser pair (`dumps` / `loads`)
  over these values, with `dumps` using the default separators
  `", "` and `": "` and emitting non-ASCII characters literally.
* Effects of the external redis library are explicit parameters: a
  `Bool` says whether a publish or subscribe call succeeds, and a
  function `fails : Nat → Bool` says which handles raise from
  `send_json`.  Each operation returns, besides the successor state,
  the externally visible actions it performed (publish, subscribe,
  per-handle push attempts) and whether an exception escapes to the
  caller.
-/

namespace TasteThreads

/-- Python strings, modelled as lists of characters. -/
abbrev PyStr := List Char

/-! ## JSON values (the broadcast payloads) -/

/-- A JSON value as produced by the service: the payload handed to
`broadcast_to_room` and carried over the bus.  Numbers are modelled as
integers. -/
inductive Json where
  | null : Json
  | bool (b : Bool) : Json
  | num (n : Int) : Json
  | str (s : PyStr) : Json
  | arr (xs : List Json) : Json
  | obj (kvs : List (PyStr × Json)) : Json

/-! ### `json.dumps` -/

/-- The decimal digit character for `n < 10`. -/
def digitChar (n : Nat) : Char := Char.ofNat (48 + n)

/-- Decimal digits of a natural number, most significant first
(no leading zeros, `0` printed as `"0"`). -/
def natDigits (n : Nat) : PyStr :=
  if _ : n < 10 then [digitChar n]
  else natDigits (n / 10) ++ [digitChar (n % 10)]
termination_by n
decreasing_by exact Nat.div_lt_self (by omega) (by omega)

/-- `json.dumps` of an integer. -/
def dumpsInt (n : Int) : PyStr :=
  if n < 0 then Char.ofNat 45 :: natDigits n.natAbs else natDigits n.toNat

/-- Lowercase hexadecimal digit character for `n < 16`
(as in the `\u%04x` escapes of `json.dumps`). -/
def hexDigitChar (n : Nat) : Char :=
  Char.ofNat (if n < 10 then 48 + n else 87 + n)

/-- How `json.dumps` renders one character inside a string literal:
backslash, quote and the common control characters get two-character
escapes, the remaining control characters get a `\u00xx` escape, and
every other character is emitted as itself. -/
def escapeChar (c : Char) : PyStr :=
  if c = Char.ofNat 92 then [Char.ofNat 92, Char.ofNat 92]
  else if c = Char.ofNat 34 then [Char.ofNat 92, Char.ofNat 34]
  else if c = Char.ofNat 10 then [Char.ofNat 92, 'n']
  else if c = Char.ofNat 9 then [Char.ofNat 92, 't']
  else if c = Char.ofNat 13 then [Char.ofNat 92, 'r']
  else if c = Char.ofNat 8 then [Char.ofNat 92, 'b']
  else if c = Char.ofNat 12 then [Char.ofNat 92, 'f']
  else if c.toNat < 32 then
    [Char.ofNat 92, 'u', '0', '0',
     hexDigitChar (c.toNat / 16), hexDigitChar (c.toNat % 16)]
  else [c]

/-- The escaped body of a string literal. -/
def escData : PyStr → PyStr
  | [] => []
  | c :: cs => escapeChar c ++ escData cs

/-- `json.dumps` of a string: a quoted, escaped literal. -/
def dumpsStr (s : PyStr) : PyStr :=
  Char.ofNat 34 :: escData s ++ [Char.ofNat 34]

mutual

/-- `json.dumps` with the default separators `", "` and `": "`. -/
def dumps : Json → PyStr
  | .null => 'n' :: 'u' :: 'l' :: 'l' :: []
  | .bool true => 't' :: 'r' :: 'u' :: 'e' :: []
  | .bool false => 'f' :: 'a' :: 'l' :: 's' :: 'e' :: []
  | .num n => dumpsInt n
  | .str s => dumpsStr s
  | .arr [] => ['[', ']']
  | .arr (x :: xs) => '[' :: (dumps x ++ dumpsArrRest xs) ++ [']']
  | .obj [] => ['{', '}']
  | .obj (kv :: kvs) => '{' :: (dumpsKV kv ++ dumpsObjRest kvs) ++ ['}']

/-- Remaining array elements, each preceded by the separator `", "`. -/
def dumpsArrRest : List Json → PyStr
  | [] => []
  | x :: xs => ',' :: ' ' :: (dumps x ++ dumpsArrRest xs)

/-- One `"key": value` member. -/
def dumpsKV : PyStr × Json → PyStr
  | (k, v) => dumpsStr k ++ ':' :: ' ' :: dumps v

/-- Remaining object members, each preceded by the separator `", "`. -/
def dumpsObjRest : List (PyStr × Json) → PyStr
  | [] => []
  | kv :: kvs => ',' :: ' ' :: (dumpsKV kv ++ dumpsObjRest kvs)

end

/-! ### `json.loads` -/

/-- JSON whitespace (space, tab, newline, carriage return). -/
def isWsChar (c : Char) : Bool :=
  c.toNat = 32 || c.toNat = 9 || c.toNat = 10 || c.toNat = 13

/-- Skip insignificant whitespace between tokens. -/
def skipWs (s : PyStr) : PyStr := s.dropWhile isWsChar

/-- Value of a hexadecimal digit character, if it is one. -/
def parseHexDigit (c : Char) : Option Nat :=
  if 48 ≤ c.toNat ∧ c.toNat ≤ 57 then some (c.toNat - 48)
  else if 97 ≤ c.toNat ∧ c.toNat ≤ 102 then some (c.toNat - 87)
  else if 65 ≤ c.toNat ∧ c.toNat ≤ 70 then some (c.toNat - 55)
  else none

/-- The character denoted by a two-character escape `\e`. -/
def escCharOf (e : Char) : Option Char :=
  if e = Char.ofNat 34 then some (Char.ofNat 34)
  else if e = Char.ofNat 92 then some (Char.ofNat 92)
  else if e = '/' then some '/'
  else if e = 'n' then some (Char.ofNat 10)
  else if e = 't' then some (Char.ofNat 9)
  else if e = 'r' then some (Char.ofNat 13)
  else if e = 'b' then some (Char.ofNat 8)
  else if e = 'f' then some (Char.ofNat 12)
  else none

/-- Parse the body of a string literal (the opening quote already
consumed), returning the decoded string and the input after the closing
quote.  Raw control characters are rejected, escapes are decoded;
`\uXXXX` escapes denoting surrogate code units are outside the
embedding and rejected. -/
def parseStringBody : PyStr → Option (PyStr × PyStr)
  | [] => none
  | c :: rest =>
    if c = Char.ofNat 34 then some ([], rest)
    else if c = Char.ofNat 92 then
      match rest with
      | [] => none
      | e :: rest2 =>
        if e = 'u' then
          match rest2 with
          | h1 :: h2 :: h3 :: h4 :: rest3 =>
            match parseHexDigit h1, parseHexDigit h2,
                  parseHexDigit h3, parseHexDigit h4 with
            | some a, some b, some c2, some d =>
              let n := ((a * 16 + b) * 16 + c2) * 16 + d
              if _ : n.isValidChar then
                (parseStringBody rest3).map (fun p => (Char.ofNat n :: p.1, p.2))
              else none
            | _, _, _, _ => none
          | _ => none
        else
          match escCharOf e with
          | some ec => (parseStringBody rest2).map (fun p => (ec :: p.1, p.2))
          | none => none
    else if c.toNat < 32 then none
    else (parseStringBody rest).map (fun p => (c :: p.1, p.2))

/-- Is the character a decimal digit? -/
def isDigitCh (c : Char) : Bool := 48 ≤ c.toNat && c.toNat ≤ 57

/-- Accumulate a maximal run of decimal digits. -/
def parseDigitsAux : PyStr → Nat → Nat × PyStr
  | [], acc => (acc, [])
  | c :: rest, acc =>
    if isDigitCh c then parseDigitsAux rest (acc * 10 + (c.toNat - 48))
    else (acc, c :: rest)

/-- Parse a natural number literal: at least one digit, then a maximal
digit run. -/
def parseNat : PyStr → Option (Nat × PyStr)
  | [] => none
  | c :: rest =>
    if isDigitCh c then some (parseDigitsAux rest (c.toNat - 48)) else none

mutual

/-- Recursive-descent parser for one JSON value, fuelled to bound the
nesting depth.  Mirrors what `json.loads` accepts on the integer
fragment of JSON produced by `dumps`. -/
def parseValue : Nat → PyStr → Option (Json × PyStr)
  | 0, _ => none
  | fuel + 1, input =>
    match skipWs input with
    | [] => none
    | c :: rest =>
      if c = 'n' then
        match rest with
        | 'u' :: 'l' :: 'l' :: r => some (.null, r)
        | _ => none
      else if c = 't' then
        match rest with
        | 'r' :: 'u' :: 'e' :: r => some (.bool true, r)
        | _ => none
      else if c = 'f' then
        match rest with
        | 'a' :: 'l' :: 's' :: 'e' :: r => some (.bool false, r)
        | _ => none
      else if c = Char.ofNat 34 then
        (parseStringBody rest).map (fun p => (.str p.1, p.2))
      else if c = '[' then
        match skipWs rest with
        | [] => none
        | c2 :: r =>
          if c2 = ']' then some (.arr [], r)
          else (parseItems fuel (c2 :: r)).map (fun p => (.arr p.1, p.2))
      else if c = '{' then
        match skipWs rest with
        | [] => none
        | c2 :: r =>
          if c2 = '}' then some (.obj [], r)
          else (parseMembers fuel (c2 :: r)).map (fun p => (.obj p.1, p.2))
      else if c = Char.ofNat 45 then
        (parseNat rest).map (fun p => (.num (-(p.1 : Int)), p.2))
      else if isDigitCh c then
        (parseNat (c :: rest)).map (fun p => (.num (p.1 : Int), p.2))
      else none

/-- Parse the non-empty element list of an array, up to and including
the closing bracket. -/
def parseItems : Nat → PyStr → Option (List Json × PyStr)
  | 0, _ => none
  | fuel + 1, input =>
    match parseValue fuel input with
    | none => none
    | some (v, r) =>
      match skipWs r with
      | ',' :: r2 => (parseItems fuel r2).map (fun p => (v :: p.1, p.2))
      | ']' :: r2 => some ([v], r2)
      | _ => none

/-- Parse the non-empty member list of an object, up to and including
the closing brace. -/
def parseMembers : Nat → PyStr → Option (List (PyStr × Json) × PyStr)
  | 0, _ => none
  | fuel + 1, input =>
    match skipWs input with
    | c :: rest =>
      if c = Char.ofNat 34 then
        match parseStringBody rest with
        | none => none
        | some (k, r) =>
          match skipWs r with
          | ':' :: r2 =>
            match parseValue fuel r2 with
            | none => none
            | some (v, r3) =>
              match skipWs r3 with
              | ',' :: r4 => (parseMembers fuel r4).map (fun p => ((k, v) :: p.1, p.2))
              | '}' :: r4 => some ([(k, v)], r4)
              | _ => none
          | _ => none
      else none
    | [] => none

end

/-- `json.loads`: parse one value, then require only trailing
whitespace. -/
def loads (s : PyStr) : Option Json :=
  match parseValue (s.length + 1) s with
  | some (j, r) => if skipWs r = [] then some j else none
  | none => none

/-- Not starting with a digit: the condition under which a printed
integer literal is not extended by what follows it. -/
def headNotDigit : PyStr → Bool
  | [] => true
  | c :: _ => !isDigitCh c

/-- A tail is compatible with a printed value: after a number literal
it must not start with a digit (other values are self-delimiting). -/
def NumOk (j : Json) (t : PyStr) : Prop :=
  match j with
  | .num _ => headNotDigit t = true
  | _ => True

mutual

/-- The nesting-depth measure of a value, dominating the fuel the
parser consumes on its printed form. -/
def sizeV : Json → Nat
  | .arr xs => sizeL xs + 1
  | .obj kvs => sizeM kvs + 1
  | _ => 1

/-- Measure of an array element list. -/
def sizeL : List Json → Nat
  | [] => 0
  | x :: xs => sizeV x + sizeL xs + 1

/-- Measure of an object member list. -/
def sizeM : List (PyStr × Json) → Nat
  | [] => 0
  | kv :: kvs => sizeV kv.2 + sizeM kvs + 1

end

/-! ## The `active_connections` dict

`RedisConnectionManager.active_connections : Dict[str, Set[WebSocket]]`
is modelled as an association list from room ids to finite sets of
handle identifiers, with the Python dict operations. -/

/-- Room identifiers are strings. -/
abbrev RoomId := PyStr

/-- The per-room connection table. -/
abbrev ConnTable := List (RoomId × Finset Nat)

/-- `d[k]` / `k in d`: first-match lookup. -/
def lookupA : ConnTable → RoomId → Option (Finset Nat)
  | [], _ => none
  | (k, v) :: rest, r => if k = r then some v else lookupA rest r

/-- `d[k] = v`: replace the value at an existing key, else append a new
entry (insertion order, as in a Python dict). -/
def setA : ConnTable → RoomId → Finset Nat → ConnTable
  | [], r, v => [(r, v)]
  | (k, w) :: rest, r, v =>
    if k = r then (r, v) :: rest else (k, w) :: setA rest r v

/-- `del d[k]`: remove the entry at a key. -/
def delA : ConnTable → RoomId → ConnTable
  | [], _ => []
  | (k, w) :: rest, r => if k = r then rest else (k, w) :: delA rest r

/-- A table is well-keyed when no room id occurs twice — the invariant
every Python dict enjoys by construction. -/
def WellKeyed (t : ConnTable) : Prop := (t.map Prod.fst).Nodup

/-! ## `RedisConnectionManager` -/

/-- The mutable state of a `RedisConnectionManager`: the connection
table and which of `redis_client`, `pubsub` and `listener_task` are
non-`None`. -/
structure MState where
  active_connections : ConnTable
  redis_client : Bool
  pubsub : Bool
  listener_task : Bool
deriving DecidableEq

/-- The channel name for a room: the literal prefix `"room:"`
concatenated with the room id (`f"room:{room_id}"`). -/
def roomChannel (r : RoomId) : PyStr := 'r' :: 'o' :: 'o' :: 'm' :: ':' :: r

/-- `channel.startswith("room:")`. -/
def startsWithRoom : PyStr → Bool
  | 'r' :: 'o' :: 'o' :: 'm' :: ':' :: _ => true
  | _ => false

/-- `self.active_connections[room_id].add(websocket)` (the entry is
known to exist at every call site). -/
def addHandle (t : ConnTable) (r : RoomId) (ws : Nat) : ConnTable :=
  match lookupA t r with
  | some s => setA t r (insert ws s)
  | none => t

/-- Result of `connect`: the successor state, whether an exception
escaped to the caller, the channel subscribed to (if any), and whether
the listener task was started. -/
structure ConnectResult where
  state : MState
  raised : Bool
  subscribed : Option PyStr
  startedListener : Bool
deriving DecidableEq

/-- `RedisConnectionManager.connect` (the `await websocket.accept()`
transport handshake is the caller-established precondition).  `subOk`
is whether the `pubsub.subscribe` call succeeds; the code does not
guard it, so on failure the exception propagates with the fresh (still
empty) room entry already inserted and the handle not yet added. -/
def connect (st : MState) (ws : Nat) (room : RoomId) (subOk : Bool) : ConnectResult :=
  match lookupA st.active_connections room with
  | some _ =>
    { state := { st with active_connections := addHandle st.active_connections room ws }
      raised := false, subscribed := none, startedListener := false }
  | none =>
    let st1 := { st with active_connections := setA st.active_connections room ∅ }
    if st1.pubsub then
      if subOk then
        let started := !st1.listener_task
        let st2 := { st1 with listener_task := true }
        { state := { st2 with active_connections := addHandle st2.active_connections room ws }
          raised := false, subscribed := some (roomChannel room), startedListener := started }
      else
        { state := st1, raised := true, subscribed := none, startedListener := false }
    else
      { state := { st1 with active_connections := addHandle st1.active_connections room ws }
        raised := false, subscribed := none, startedListener := false }

/-- Result of `disconnect`: the successor state and the channel
unsubscribed from (if any; the unsubscribe itself is fire-and-forget). -/
structure DisconnectResult where
  state : MState
  unsubscribed : Option PyStr
deriving DecidableEq

/-- `RedisConnectionManager.disconnect`: discard the handle; if the
room's set became empty, delete the entry and (when a pubsub client
exists) schedule an unsubscribe.  No statement in it can raise. -/
def disconnect (st : MState) (ws : Nat) (room : RoomId) : DisconnectResult :=
  match lookupA st.active_connections room with
  | none => { state := st, unsubscribed := none }
  | some s =>
    let s2 := s.erase ws
    let t1 := setA st.active_connections room s2
    if s2 = ∅ then
      { state := { st with active_connections := delA t1 room }
        unsubscribed := if st.pubsub then some (roomChannel room) else none }
    else
      { state := { st with active_connections := t1 }, unsubscribed := none }

/-- One `connection.send_json(message)` call: the target handle, the
payload pushed to it, and whether the call succeeded. -/
structure Push where
  handle : Nat
  payload : Json
  ok : Bool

/-- Result of `_broadcast_locally`: the successor state and the push
attempts in iteration order. -/
structure LocalResult where
  state : MState
  attempts : List Push

/-- `RedisConnectionManager._broadcast_locally`: iterate the room's
set, catching each failing `send_json` individually and collecting the
failing handles; after the iteration, discard each collected handle
from the room's set (the entry itself is never deleted here).  A
Python set iterates in an unspecified order; the embedding iterates in
ascending handle order. -/
def broadcastLocally (st : MState) (room : RoomId) (msg : Json) (fails : Nat → Bool) :
    LocalResult :=
  match lookupA st.active_connections room with
  | none => { state := st, attempts := [] }
  | some s =>
    let conns := s.sort (· ≤ ·)
    let attempts := conns.map (fun h => { handle := h, payload := msg, ok := !fails h })
    let disconnected := s.filter (fun h => fails h)
    let s2 := s \ disconnected
    { state := { st with active_connections := setA st.active_connections room s2 }
      attempts := attempts }

/-- Result of `broadcast_to_room`: the successor state, the `(channel,
message)` pair published on the bus (if any), the local push attempts,
and whether an exception escaped to the caller. -/
structure BroadcastResult where
  state : MState
  published : Option (PyStr × PyStr)
  attempts : List Push
  raised : Bool

/-- `RedisConnectionManager.broadcast_to_room`: serialize the payload;
if a redis client exists, publish it on `"room:" + room_id` (a publish
failure is caught and answered with a local-only broadcast); without a
client, broadcast locally.  `pubOk` is whether the publish call
succeeds. -/
def broadcast_to_room (st : MState) (room : RoomId) (msg : Json)
    (pubOk : Bool) (fails : Nat → Bool) : BroadcastResult :=
  let message_str := dumps msg
  if st.redis_client then
    if pubOk then
      { state := st, published := some (roomChannel room, message_str)
        attempts := [], raised := false }
    else
      let r := broadcastLocally st room msg fails
      { state := r.state, published := none, attempts := r.attempts, raised := false }
  else
    let r := broadcastLocally st room msg fails
    { state := r.state, published := none, attempts := r.attempts, raised := false }

/-! ## The listener task (`_listen_to_redis`) -/

/-- One event seen by the listener's `pubsub.listen()` loop: a frame of
type `"message"`, a frame of any other type (subscribe confirmations
and the like), or an exception raised by the stream. -/
inductive BusEvent where
  | message (channel data : PyStr) : BusEvent
  | other : BusEvent
  | streamError : BusEvent

/-- The body of the listener loop for one `"message"` frame: if the
channel starts with `"room:"`, strip that prefix to recover the room
id and deliver the decoded payload locally; a `json.JSONDecodeError`
is caught and the frame dropped. -/
def handleMessage (st : MState) (channel data : PyStr) (fails : Nat → Bool) :
    MState × List Push :=
  if startsWithRoom channel then
    let room := channel.drop 5
    match loads data with
    | some j =>
      let r := broadcastLocally st room j fails
      (r.state, r.attempts)
    | none => (st, [])
  else (st, [])

/-- The listener loop over a stream of events: frames are handled in
order until the stream raises, at which point the handler clears
`self.listener_task` and the task ends (it is not restarted from
inside the handler). -/
def listenerRun (st : MState) (evts : List BusEvent) (fails : Nat → Bool) :
    MState × List Push :=
  match evts with
  | [] => (st, [])
  | .streamError :: _ => ({ st with listener_task := false }, [])
  | .other :: rest => listenerRun st rest fails
  | .message c d :: rest =>
    let r1 := handleMessage st c d fails
    let r2 := listenerRun r1.1 rest fails
    (r2.1, r1.2 ++ r2.2)

/-- `RedisConnectionManager._listen_to_redis`: returns immediately
when no pubsub client exists, otherwise runs the loop. -/
def listen_to_redis (st : MState) (evts : List BusEvent) (fails : Nat → Bool) :
    MState × List Push :=
  if st.pubsub then listenerRun st evts fails else (st, [])

/-! ## `debug_connections` (src/api/routers/rooms.py) -/

/-- The JSON body answered by `GET /debug/connections` when the
manager exists. -/
structure DebugInfo where
  manager_exists : Bool
  redis_connected : Bool
  rooms : List (RoomId × Nat)
  total_connections : Nat
deriving DecidableEq

/-- `debug_connections`: build `{room_id: len(sockets)}` from the
table and report whether `redis_client` is non-`None`.  The returned
manager state records that the endpoint mutates nothing. -/
def debug_connections (st : MState) : MState × DebugInfo :=
  (st,
   { manager_exists := true
     redis_connected := st.redis_client
     rooms := st.active_connections.map (fun p => (p.1, p.2.card))
     total_connections := (st.active_connections.map (fun p => p.2.card)).sum })

/-! ## The WebSocket endpoint (src/api/routers/websocket.py) -/

/-- Python `str.lower` on one character (basic-latin range; the room
ids this service uses are ASCII). -/
def pyLowerChar (c : Char) : Char := c.toLower

/-- Python `str.lower`. -/
def pyLower (s : PyStr) : PyStr := s.map pyLowerChar

/-- The room id the endpoint uses for every manager call:
`room_id = room_id.lower()` on entry. -/
def endpointRoom (room_id : PyStr) : RoomId := pyLower room_id

/-- The manager-visible effect of one WebSocket session on
`/ws/{room_id}` after successful authentication: lowercase the room
id, `connect` (whose subscribe failure would propagate, ending the
session), broadcast each received message to the room, and
`disconnect` on the way out. -/
def websocket_endpoint (st : MState) (ws : Nat) (room_id : PyStr)
    (msgs : List Json) (subOk pubOk : Bool) (fails : Nat → Bool) : MState :=
  let rid := endpointRoom room_id
  let c := connect st ws rid subOk
  if c.raised then c.state
  else
    let st2 := msgs.foldl (fun s m => (broadcast_to_room s rid m pubOk fails).state) c.state
    (disconnect st2 ws rid).state

/-! ## Derived notions used by the statements -/

/-- Whether a handle is currently registered under a room. -/
def memberB (st : MState) (room : RoomId) (ws : Nat) : Bool :=
  match lookupA st.active_connections room with
  | some s => decide (ws ∈ s)
  | none => false

/-- The table invariant of the spec: every room id present in the
table has a non-empty handle set. -/
def TableInv (t : ConnTable) : Prop :=
  ∀ r s, lookupA t r = some s → s ≠ ∅

/-- One operation of a `connect`/`disconnect` sequence on a fixed
`(handle, room)` pair. -/
inductive COp where
  | conn : COp
  | disc : COp

/-- Run a sequence of `connect`/`disconnect` calls for one `(handle,
room)` pair (the bus subscription succeeding whenever attempted). -/
def runOps (ws : Nat) (room : RoomId) : MState → List COp → MState
  | st, [] => st
  | st, .conn :: rest => runOps ws room (connect st ws room true).state rest
  | st, .disc :: rest => runOps ws room (disconnect st ws room).state rest

/-! ## Lemmas about the dict operations -/

theorem lookupA_none_iff (t : ConnTable) (r : RoomId) :
    lookupA t r = none ↔ r ∉ t.map Prod.fst := by
  induction t with
  | nil => simp [lookupA]
  | cons p rest ih =>
    by_cases hp : p.1 = r
    · simp [lookupA, hp]
    · simp [lookupA, hp, ih, Ne.symm hp]

theorem lookupA_setA_self (t : ConnTable) (r : RoomId) (v : Finset Nat) :
    lookupA (setA t r v) r = some v := by
  induction t with
  | nil => simp [setA, lookupA]
  | cons p rest ih =>
    by_cases h : p.1 = r
    · simp [setA, h, lookupA]
    · simp [setA, h, lookupA, ih]

theorem lookupA_setA_ne (t : ConnTable) (r k : RoomId) (v : Finset Nat)
    (h : k ≠ r) : lookupA (setA t r v) k = lookupA t k := by
  induction t with
  | nil => simp [setA, lookupA, Ne.symm h]
  | cons p rest ih =>
    by_cases hp : p.1 = r
    · rw [show setA (p :: rest) r v = (r, v) :: rest by simp [setA, hp]]
      have h1 : p.1 ≠ k := by rw [hp]; exact Ne.symm h
      simp only [lookupA, if_neg (Ne.symm h), if_neg h1]
    · simp [setA, hp, lookupA, ih]

theorem keys_setA_some (t : ConnTable) (r : RoomId) (v : Finset Nat)
    (h : r ∈ t.map Prod.fst) :
    (setA t r v).map Prod.fst = t.map Prod.fst := by
  induction t with
  | nil => simp at h
  | cons p rest ih =>
    by_cases hp : p.1 = r
    · simp [setA, hp]
    · simp only [List.map_cons, List.mem_cons] at h
      rcases h with h | h
    
      · exact absurd h.symm hp
      · simp [setA, hp, ih h]

theorem keys_setA_none (t : ConnTable) (r : RoomId) (v : Finset Nat)
    (h : r ∉ t.map Prod.fst) :
    (setA t r v).map Prod.fst = t.map Prod.fst ++ [r] := by
  induction t with
  | nil => simp [setA]
  | cons p rest ih =>
    simp only [List.map_cons, List.mem_cons] at h
    push_neg at h
    simp [setA, Ne.symm h.1, ih h.2]

theorem wellKeyed_setA (t : ConnTable) (r : RoomId) (v : Finset Nat)
    (h : WellKeyed t) : WellKeyed (setA t r v) := by
  unfold WellKeyed at h ⊢
  by_cases hmem : r ∈ t.map Prod.fst
  · rw [keys_setA_some t r v hmem]
    exact h
  · rw [keys_setA_none t r v hmem]
    simpa using List.Nodup.append h (by simp) (by simpa using hmem)

theorem lookupA_delA_ne (t : ConnTable) (r k : RoomId) (h : k ≠ r) :
    lookupA (delA t r) k = lookupA t k := by
  induction t with
  | nil => simp [delA]
  | cons p rest ih =>
    by_cases hp : p.1 = r
    · rw [show delA (p :: rest) r = rest by simp [delA, hp]]
      rw [show lookupA (p :: rest) k = lookupA rest k by
        simp [lookupA, hp, if_neg (Ne.symm h)]]
  
    · simp [delA, hp, lookupA, ih]

theorem keys_delA_subset (t : ConnTable) (r : RoomId) :
    ∀ k, k ∈ (delA t r).map Prod.fst → k ∈ t.map Prod.fst := by
  induction t with
  | nil => simp [delA]
  | cons p rest ih =>
    intro k hk
    by_cases hp : p.1 = r
    · simp only [delA, hp, if_pos] at hk
      simp [hk]
    · simp only [delA, hp, if_neg, not_false_iff, List.map_cons, List.mem_cons] at hk
      rcases hk with hk | hk
      · simp [hk]
      · exact List.mem_cons_of_mem _ (ih k hk)

theorem wellKeyed_delA (t : ConnTable) (r : RoomId) (h : WellKeyed t) :
    WellKeyed (delA t r) := by
  induction t with
  | nil => simpa [delA] using h
  | cons p rest ih =>
    by_cases hp : p.1 = r
    · simpa [delA, hp] using List.Nodup.of_cons h
    · unfold WellKeyed at h ⊢
      simp only [List.map_cons, List.nodup_cons] at h
      simp only [delA, hp, if_neg, not_false_iff, List.map_cons, List.nodup_cons]
      exact ⟨fun hmem => h.1 (keys_delA_subset rest r p.1 hmem), ih h.2⟩

theorem lookupA_delA_self (t : ConnTable) (r : RoomId) (h : WellKeyed t) :
    lookupA (delA t r) r = none := by
  induction t with
  | nil => simp [delA, lookupA]
  | cons p rest ih =>
    unfold WellKeyed at h
    simp only [List.map_cons, List.nodup_cons] at h
    by_cases hp : p.1 = r
    · rw [show delA (p :: rest) r = rest by simp [delA, hp]]
      exact (lookupA_none_iff rest r).mpr (hp ▸ h.1)
    · simp only [delA, hp, if_neg, not_false_iff, lookupA]
      exact ih h.2

theorem lookupA_mem (t : ConnTable) (r : RoomId) (s : Finset Nat)
    (h : lookupA t r = some s) : (r, s) ∈ t := by
  induction t with
  | nil => simp [lookupA] at h
  | cons p rest ih =>
    obtain ⟨p1, p2⟩ := p
    by_cases hp : p1 = r
    · subst hp
      simp only [lookupA, if_pos, Option.some_inj] at h
      rw [h]
      exact List.mem_cons_self _ _
    · simp only [lookupA, hp, if_neg, not_false_iff] at h
      exact List.mem_cons_of_mem _ (ih h)

/-! ## Lemmas about the manager operations -/

theorem connect_state_table (st : MState) (ws : Nat) (room : RoomId) (subOk : Bool) :
    (connect st ws room subOk).state.active_connections =
      match lookupA st.active_connections room with
      | some s => setA st.active_connections room (insert ws s)
      | none =>
        if st.pubsub then
          if subOk then setA (setA st.active_connections room ∅) room (insert ws ∅)
          else setA st.active_connections room ∅
        else setA (setA st.active_connections room ∅) room (insert ws ∅) := by
  cases hl : lookupA st.active_connections room with
  | some s => simp [connect, hl, addHandle]
  | none =>
    by_cases hp : st.pubsub
    · by_cases hs : subOk
      · simp [connect, hl, hp, hs, addHandle, lookupA_setA_self]
      · simp [connect, hl, hp, hs]
    · simp [connect, hl, hp, addHandle, lookupA_setA_self]

theorem setA_setA_self (t : ConnTable) (r : RoomId) (v w : Finset Nat) :
    setA (setA t r v) r w = setA t r w := by
  induction t with
  | nil => simp [setA]
  | cons p rest ih =>
    by_cases hp : p.1 = r
    · simp [setA, hp]
    · simp [setA, hp, ih]

theorem disconnect_state_table (st : MState) (ws : Nat) (room : RoomId) :
    (disconnect st ws room).state.active_connections =
      match lookupA st.active_connections room with
      | none => st.active_connections
      | some s =>
        if s.erase ws = ∅ then delA (setA st.active_connections room (s.erase ws)) room
        else setA st.active_connections room (s.erase ws) := by
  cases hl : lookupA st.active_connections room with
  | none => simp [disconnect, hl]
  | some s =>
    by_cases he : s.erase ws = ∅ <;> simp [disconnect, hl, he]

theorem connect_state_table_some (st : MState) (ws : Nat) (room : RoomId)
    (subOk : Bool) (s : Finset Nat) (hl : lookupA st.active_connections room = some s) :
    (connect st ws room subOk).state.active_connections =
      setA st.active_connections room (insert ws s) := by
  rw [connect_state_table, hl]

theorem connect_state_table_none_ok (st : MState) (ws : Nat) (room : RoomId)
    (subOk : Bool) (hl : lookupA st.active_connections room = none)
    (hok : st.pubsub = false ∨ subOk = true) :
    (connect st ws room subOk).state.active_connections =
      setA st.active_connections room (insert ws ∅) := by
  rw [connect_state_table, hl, ← setA_setA_self st.active_connections room ∅ (insert ws ∅)]
  rcases hok with hok | hok
  · simp [hok]
  · by_cases hp : st.pubsub = true <;> simp [hok, hp]

theorem disconnect_state_table_none (st : MState) (ws : Nat) (room : RoomId)
    (hl : lookupA st.active_connections room = none) :
    (disconnect st ws room).state.active_connections = st.active_connections := by
  rw [disconnect_state_table, hl]

theorem disconnect_state_table_some (st : MState) (ws : Nat) (room : RoomId)
    (s : Finset Nat) (hl : lookupA st.active_connections room = some s) :
    (disconnect st ws room).state.active_connections =
      if s.erase ws = ∅ then delA (setA st.active_connections room (s.erase ws)) room
      else setA st.active_connections room (s.erase ws) := by
  rw [disconnect_state_table, hl]

theorem wellKeyed_connect (st : MState) (ws : Nat) (room : RoomId) (subOk : Bool)
    (h : WellKeyed st.active_connections) :
    WellKeyed (connect st ws room subOk).state.active_connections := by
  rw [connect_state_table]
  cases lookupA st.active_connections room with
  | some s => exact wellKeyed_setA _ _ _ h
  | none =>
    by_cases hp : st.pubsub = true
    · by_cases hs : subOk = true
      · simpa [hp, hs] using
          wellKeyed_setA _ room (insert ws ∅) (wellKeyed_setA _ room ∅ h)
      · simpa [hp, hs] using wellKeyed_setA _ room ∅ h
    · simpa [hp] using
        wellKeyed_setA _ room (insert ws ∅) (wellKeyed_setA _ room ∅ h)

theorem wellKeyed_disconnect (st : MState) (ws : Nat) (room : RoomId)
    (h : WellKeyed st.active_connections) :
    WellKeyed (disconnect st ws room).state.active_connections := by
  rw [disconnect_state_table]
  cases lookupA st.active_connections room with
  | none => exact h
  | some s =>
    by_cases he : s.erase ws = ∅
    · simpa [he] using wellKeyed_delA _ room (wellKeyed_setA _ room (s.erase ws) h)
    · simpa [he] using wellKeyed_setA _ room (s.erase ws) h

theorem memberB_connect_self (st : MState) (ws : Nat) (room : RoomId) :
    memberB (connect st ws room true).state room ws = true := by
  unfold memberB
  rw [connect_state_table]
  cases hl : lookupA st.active_connections room with
  | some s => simp [lookupA_setA_self]
  | none =>
    by_cases hp : st.pubsub = true
    · simp [hp, setA_setA_self, lookupA_setA_self]
    · simp [hp, setA_setA_self, lookupA_setA_self]

theorem memberB_disconnect_self (st : MState) (ws : Nat) (room : RoomId)
    (h : WellKeyed st.active_connections) :
    memberB (disconnect st ws room).state room ws = false := by
  unfold memberB
  rw [disconnect_state_table]
  cases hl : lookupA st.active_connections room with
  | none =>
    rw [hl]
  | some s =>
    by_cases he : s.erase ws = ∅
    · simp only [he, if_pos]
      rw [lookupA_delA_self _ _ (wellKeyed_setA _ _ _ h)]
    · simp only [he, if_neg, not_false_iff]
      rw [lookupA_setA_self]
      simp

/-! ## Claim C4 -/

/-- Counterexample to claim C4: with a pubsub client present and an
empty table, a failing bus subscription during `connect` for the first
member of a room propagates the exception to the caller (the
`pubsub.subscribe` call in `connect` is not guarded by `try`). -/
theorem connect_subscribe_failure_raises :
    (connect ⟨[], true, true, false⟩ 1 ['r'] false).raised = true := by decide

/-- Claim C4 (amended): `connect` returns normally whenever the room
already has an entry, or no pubsub client exists, or the bus
subscription performed for the first member of the room succeeds; a
failing first-member subscription, however, is uncaught and propagates
to the caller. -/
theorem connect_succeeds_unless_first_subscribe_fails
    (st : MState) (ws : Nat) (room : RoomId) (subOk : Bool)
    (h : lookupA st.active_connections room ≠ none ∨ st.pubsub = false ∨ subOk = true) :
    (connect st ws room subOk).raised = false := by
  cases hl : lookupA st.active_connections room with
  | some s => simp [connect, hl]
  | none =>
    rcases h with h | h | h
    · exact absurd hl h
    · simp [connect, hl, h]
    · by_cases hp : st.pubsub = true <;> simp [connect, hl, h, hp]

/-- Witness for the amended C4 theorem at a concrete input. -/
theorem connect_succeeds_unless_first_subscribe_fails_witness :
    (connect ⟨[], true, true, false⟩ 1 ['r'] true).raised = false :=
  connect_succeeds_unless_first_subscribe_fails ⟨[], true, true, false⟩ 1 ['r'] true
    (Or.inr (Or.inr rfl))

/-! ## Claim C3 -/

/-- Counterexample to claim C3: broadcasting (with the bus absent) to
a room whose single handle fails leaves the room present in the table
with an empty set — the dead-handle cleanup of `_broadcast_locally`
discards the handle but never removes the now-empty entry, so after
this `broadcast` the table violates present-iff-non-empty. -/
theorem broadcast_cleanup_leaves_empty_entry :
    lookupA ((broadcast_to_room ⟨[(['r'], {1})], false, false, false⟩ ['r'] .null false
      (fun _ => true)).state).active_connections ['r'] = some (∅ : Finset Nat) := by
  decide

/-- Claim C3 (amended): after `connect` (when its bus subscription
does not raise) and after `disconnect`, every room present in the
table has a non-empty handle set; `disconnect` removes an entry in the
same step that removes its last member, and once an entry is removed a
subsequent `connect` for that room issues a fresh bus subscription.
`broadcast`'s dead-handle cleanup, however, only discards failing
handles and can leave a room entry present with an empty set. -/
theorem connect_disconnect_preserve_presence_invariant :
    (∀ st ws room subOk, st.pubsub = false ∨ subOk = true →
       TableInv st.active_connections →
       TableInv (connect st ws room subOk).state.active_connections) ∧
    (∀ st ws room, WellKeyed st.active_connections →
       TableInv st.active_connections →
       TableInv (disconnect st ws room).state.active_connections) ∧
    (∀ st ws room s, WellKeyed st.active_connections →
       lookupA st.active_connections room = some s → s.erase ws = ∅ →
       lookupA (disconnect st ws room).state.active_connections room = none) ∧
    (∀ st ws room, lookupA st.active_connections room = none → st.pubsub = true →
       (connect st ws room true).subscribed = some (roomChannel room)) := by
  refine ⟨?_, ?_, ?_, ?_⟩
  · intro st ws room subOk hok hinv r s hs
    cases hl : lookupA st.active_connections room with
    | some s0 =>
      rw [connect_state_table_some st ws room subOk s0 hl] at hs
      by_cases hr : r = room
      · subst hr
        rw [lookupA_setA_self] at hs
        simp [← Option.some_inj.mp hs]
      · rw [lookupA_setA_ne _ _ _ _ hr] at hs
        exact hinv r s hs
    | none =>
      rw [connect_state_table_none_ok st ws room subOk hl hok] at hs
      by_cases hr : r = room
      · subst hr
        rw [lookupA_setA_self] at hs
        simp [← Option.some_inj.mp hs]
      · rw [lookupA_setA_ne _ _ _ _ hr] at hs
        exact hinv r s hs
  · intro st ws room hwk hinv r s hs
    cases hl : lookupA st.active_connections room with
    | none =>
      rw [disconnect_state_table_none st ws room hl] at hs
      exact hinv r s hs
    | some s0 =>
      rw [disconnect_state_table_some st ws room s0 hl] at hs
      by_cases he : s0.erase ws = ∅
      · rw [if_pos he] at hs
        by_cases hr : r = room
        · subst hr
          rw [lookupA_delA_self _ _ (wellKeyed_setA _ _ _ hwk)] at hs
          exact absurd hs (by simp)
        · rw [lookupA_delA_ne _ _ _ hr, lookupA_setA_ne _ _ _ _ hr] at hs
          exact hinv r s hs
      · rw [if_neg he] at hs
        by_cases hr : r = room
        · subst hr
          rw [lookupA_setA_self] at hs
          rw [← Option.some_inj.mp hs]
          exact he
        · rw [lookupA_setA_ne _ _ _ _ hr] at hs
          exact hinv r s hs
  · intro st ws room s hwk hs he
    rw [disconnect_state_table_some st ws room s hs, if_pos he]
    exact lookupA_delA_self _ _ (wellKeyed_setA _ _ _ hwk)
  · intro st ws room hl hp
    simp [connect, hl, hp]

/-- Witness for the amended C3 theorem at a concrete input. -/
theorem connect_disconnect_preserve_presence_invariant_witness :
    TableInv (connect ⟨[], false, false, false⟩ 1 ['r'] true).state.active_connections :=
  connect_disconnect_preserve_presence_invariant.1 ⟨[], false, false, false⟩ 1 ['r'] true
    (Or.inl rfl) (fun r s hs => by simp [lookupA] at hs)

/-! ## Lemmas about local delivery -/

theorem broadcastLocally_attempts (st : MState) (room : RoomId) (msg : Json)
    (fails : Nat → Bool) (s : Finset Nat)
    (h : lookupA st.active_connections room = some s) :
    (broadcastLocally st room msg fails).attempts =
      (s.sort (· ≤ ·)).map (fun h2 => { handle := h2, payload := msg, ok := !fails h2 }) := by
  simp [broadcastLocally, h]

theorem broadcastLocally_handles (st : MState) (room : RoomId) (msg : Json)
    (fails : Nat → Bool) (s : Finset Nat)
    (h : lookupA st.active_connections room = some s) :
    (broadcastLocally st room msg fails).attempts.map Push.handle = s.sort (· ≤ ·) := by
  rw [broadcastLocally_attempts st room msg fails s h, List.map_map]
  exact List.map_id _

theorem broadcastLocally_count (st : MState) (room : RoomId) (msg : Json)
    (fails : Nat → Bool) (s : Finset Nat)
    (h : lookupA st.active_connections room = some s) (h2 : Nat) :
    ((broadcastLocally st room msg fails).attempts.map Push.handle).count h2 =
      if h2 ∈ s then 1 else 0 := by
  rw [broadcastLocally_handles st room msg fails s h]
  by_cases hm : h2 ∈ s
  · rw [if_pos hm]
    exact List.count_eq_one_of_mem (Finset.sort_nodup _ s) (Finset.mem_sort _ |>.mpr hm)
  · rw [if_neg hm]
    exact List.count_eq_zero.mpr (fun hc => hm ((Finset.mem_sort _).mp hc))

theorem broadcastLocally_state (st : MState) (room : RoomId) (msg : Json)
    (fails : Nat → Bool) (s : Finset Nat)
    (h : lookupA st.active_connections room = some s) :
    lookupA (broadcastLocally st room msg fails).state.active_connections room =
      some (s.filter (fun h2 => fails h2 = false)) := by
  have hset : s \ s.filter (fun h2 => fails h2) = s.filter (fun h2 => fails h2 = false) := by
    ext x
    simp only [Finset.mem_sdiff, Finset.mem_filter]
    constructor
    · rintro ⟨hx, hnx⟩
      refine ⟨hx, ?_⟩
      by_contra hb
      exact hnx ⟨hx, by revert hb; cases fails x <;> simp⟩
    · rintro ⟨hx, hf⟩
      exact ⟨hx, fun hc => by simp [hf] at hc⟩
  simp only [broadcastLocally, h]
  rw [lookupA_setA_self, hset]

/-! ## Claim C5 -/

/-- Claim C5: during local delivery a failing push does not prevent
delivery to the other handles of the same call — every registered
handle is attempted exactly once, pushes are computed from the set as
it was when the iteration started, non-failing handles get the payload
successfully, and each failing handle has been removed from the room's
set once the iteration is over. -/
theorem local_delivery_failures_isolated
    (st : MState) (room : RoomId) (msg : Json) (fails : Nat → Bool) (s : Finset Nat)
    (h : lookupA st.active_connections room = some s) :
    (∀ h2 ∈ s,
       (((broadcastLocally st room msg fails).attempts.map Push.handle).count h2 = 1)) ∧
    (∀ p ∈ (broadcastLocally st room msg fails).attempts,
       p.handle ∈ s ∧ p.payload = msg ∧ p.ok = !fails p.handle) ∧
    lookupA (broadcastLocally st room msg fails).state.active_connections room =
      some (s.filter (fun h2 => fails h2 = false)) ∧
    (∀ h2, fails h2 = true → h2 ∉ s.filter (fun h2 => fails h2 = false)) := by
  refine ⟨?_, ?_, broadcastLocally_state st room msg fails s h, ?_⟩
  · intro h2 hm
    rw [broadcastLocally_count st room msg fails s h h2, if_pos hm]
  · intro p hp
    rw [broadcastLocally_attempts st room msg fails s h] at hp
    obtain ⟨h2, hmem, rfl⟩ := List.mem_map.mp hp
    exact ⟨(Finset.mem_sort _).mp hmem, rfl, rfl⟩
  · intro h2 hf
    simp [Finset.mem_filter, hf]

/-- Witness for the C5 theorem at a concrete input. -/
theorem local_delivery_failures_isolated_witness :
    lookupA (broadcastLocally ⟨[(['r'], {1, 2})], false, false, false⟩ ['r'] .null
        (fun h2 => h2 = 1)).state.active_connections ['r'] =
      some (Finset.filter (fun h2 => (decide (h2 = 1)) = false) {1, 2}) :=
  (local_delivery_failures_isolated ⟨[(['r'], {1, 2})], false, false, false⟩ ['r'] .null
    (fun h2 => h2 = 1) {1, 2} (by decide)).2.2.1

/-! ## Claim C2 -/

/-- Claim C2: `broadcast_to_room` never raises (for any table state
and payload), and when the bus client is absent or the publish fails
it publishes nothing and falls back to local-only delivery, pushing
the payload exactly once to every handle currently registered under
`room_id` and to no handle of any other room. -/
theorem broadcast_falls_back_to_local_only
    (st : MState) (room : RoomId) (msg : Json) (pubOk : Bool) (fails : Nat → Bool)
    (h : st.redis_client = false ∨ pubOk = false) :
    (∀ st2 room2 msg2 pubOk2 fails2,
       (broadcast_to_room st2 room2 msg2 pubOk2 fails2).raised = false) ∧
    (broadcast_to_room st room msg pubOk fails).published = none ∧
    (broadcast_to_room st room msg pubOk fails).attempts =
      (broadcastLocally st room msg fails).attempts ∧
    (broadcast_to_room st room msg pubOk fails).state =
      (broadcastLocally st room msg fails).state ∧
    (∀ p ∈ (broadcast_to_room st room msg pubOk fails).attempts,
       p.payload = msg ∧
       ∃ s, lookupA st.active_connections room = some s ∧ p.handle ∈ s) ∧
    (∀ s, lookupA st.active_connections room = some s → ∀ h2 ∈ s,
       ((broadcast_to_room st room msg pubOk fails).attempts.map Push.handle).count h2
         = 1) := by
  have hfall :
      (broadcast_to_room st room msg pubOk fails).published = none ∧
      (broadcast_to_room st room msg pubOk fails).attempts =
        (broadcastLocally st room msg fails).attempts ∧
      (broadcast_to_room st room msg pubOk fails).state =
        (broadcastLocally st room msg fails).state := by
    rcases h with h | h
    · simp [broadcast_to_room, h]
    · by_cases hr : st.redis_client = true <;> simp [broadcast_to_room, h, hr]
  refine ⟨?_, hfall.1, hfall.2.1, hfall.2.2, ?_, ?_⟩
  · intro st2 room2 msg2 pubOk2 fails2
    by_cases hr : st2.redis_client = true <;> by_cases hp : pubOk2 = true <;>
      simp [broadcast_to_room, hr, hp]
  · intro p hp
    rw [hfall.2.1] at hp
    cases hl : lookupA st.active_connections room with
    | none => simp [broadcastLocally, hl] at hp
    | some s =>
      rw [broadcastLocally_attempts st room msg fails s hl] at hp
      obtain ⟨h2, hmem, rfl⟩ := List.mem_map.mp hp
      exact ⟨rfl, s, rfl, (Finset.mem_sort _).mp hmem⟩
  · intro s hs h2 hm
    rw [hfall.2.1, broadcastLocally_count st room msg fails s hs h2, if_pos hm]

/-- Witness for the C2 theorem at a concrete input. -/
theorem broadcast_falls_back_to_local_only_witness :
    (broadcast_to_room ⟨[(['r'], {1})], false, false, false⟩ ['r'] .null true
      (fun _ => false)).published = none :=
  (broadcast_falls_back_to_local_only ⟨[(['r'], {1})], false, false, false⟩ ['r'] .null
    true (fun _ => false) (Or.inl rfl)).2.1

/-! ## Claim C7 -/

theorem runOps_append (ws : Nat) (room : RoomId) (st : MState) (l1 l2 : List COp) :
    runOps ws room st (l1 ++ l2) = runOps ws room (runOps ws room st l1) l2 := by
  induction l1 generalizing st with
  | nil => rfl
  | cons op rest ih =>
    cases op <;> simp [runOps, ih]

theorem wellKeyed_runOps (ws : Nat) (room : RoomId) (st : MState) (ops : List COp)
    (h : WellKeyed st.active_connections) :
    WellKeyed (runOps ws room st ops).active_connections := by
  induction ops generalizing st with
  | nil => exact h
  | cons op rest ih =>
    cases op
    · exact ih _ (wellKeyed_connect st ws room true h)
    · exact ih _ (wellKeyed_disconnect st ws room h)

/-- Claim C7: over sequences of `connect`/`disconnect` on one
`(handle, room)` pair the final membership is the net effect of the
sequence — a sequence ending in `connect` leaves the handle present, a
sequence ending in `disconnect` leaves it absent (in particular
connect-then-disconnect leaves it absent), and `disconnect` of an
absent handle/room pair changes no membership (and, being
exception-free straight-line code, raises nothing). -/
theorem connect_disconnect_net_effect :
    (∀ st ws room subOk, WellKeyed st.active_connections →
       memberB (disconnect (connect st ws room subOk).state ws room).state room ws
         = false) ∧
    (∀ st ws room, WellKeyed st.active_connections → memberB st room ws = false →
       ∀ r2 w2, memberB (disconnect st ws room).state r2 w2 = memberB st r2 w2) ∧
    (∀ st ws room ops, WellKeyed st.active_connections →
       memberB (runOps ws room st (ops ++ [COp.conn])) room ws = true ∧
       memberB (runOps ws room st (ops ++ [COp.disc])) room ws = false) := by
  refine ⟨?_, ?_, ?_⟩
  · intro st ws room subOk hwk
    exact memberB_disconnect_self _ ws room (wellKeyed_connect st ws room subOk hwk)
  · intro st ws room hwk habs r2 w2
    unfold memberB at habs ⊢
    cases hl : lookupA st.active_connections room with
    | none => rw [disconnect_state_table_none st ws room hl]
    | some s =>
      rw [hl] at habs
      have hws : ws ∉ s := by simpa using habs
      have herase : s.erase ws = s := Finset.erase_eq_of_not_mem hws
      rw [disconnect_state_table_some st ws room s hl, herase]
      by_cases hse : s = ∅
      · rw [if_pos hse]
        by_cases hr : r2 = room
        · subst hr
          rw [lookupA_delA_self _ _ (wellKeyed_setA _ _ _ hwk), hl, hse]
          simp
        · rw [lookupA_delA_ne _ _ _ hr, lookupA_setA_ne _ _ _ _ hr]
      · rw [if_neg hse]
        by_cases hr : r2 = room
        · subst hr
          rw [lookupA_setA_self, hl]
        · rw [lookupA_setA_ne _ _ _ _ hr]
  · intro st ws room ops hwk
    constructor
    · rw [runOps_append]
      exact memberB_connect_self _ ws room
    · rw [runOps_append]
      exact memberB_disconnect_self _ ws room (wellKeyed_runOps ws room st ops hwk)

/-- Witness for the C7 theorem at a concrete input. -/
theorem connect_disconnect_net_effect_witness :
    memberB (disconnect (connect ⟨[], false, false, false⟩ 1 ['r'] true).state
      1 ['r']).state ['r'] 1 = false :=
  connect_disconnect_net_effect.1 ⟨[], false, false, false⟩ 1 ['r'] true (by simp [WellKeyed])

/-! ## Claim C8 -/

/-- Claim C8: on an unrecoverable stream error the listener task
terminates at once, clears its own handle (`listener_task := None`)
and handles no further events (it is not restarted from inside the
error handler); a malformed (non-JSON) broker payload is merely
skipped and does not terminate the run; and a later `connect` that
creates a fresh room entry while the bus is up restarts the listener. -/
theorem listener_error_clears_handle_restartable :
    (∀ st rest fails, st.pubsub = true →
       listen_to_redis st (.streamError :: rest) fails =
         ({ st with listener_task := false }, [])) ∧
    (∀ st c d rest fails, st.pubsub = true → loads d = none →
       listen_to_redis st (.message c d :: rest) fails = listen_to_redis st rest fails) ∧
    (∀ st ws room, st.listener_task = false → st.pubsub = true →
       lookupA st.active_connections room = none →
       (connect st ws room true).state.listener_task = true ∧
       (connect st ws room true).startedListener = true) := by
  refine ⟨?_, ?_, ?_⟩
  · intro st rest fails hp
    simp [listen_to_redis, hp, listenerRun]
  · intro st c d rest fails hp hbad
    simp only [listen_to_redis, hp, if_pos, listenerRun, handleMessage, hbad]
    by_cases hr : startsWithRoom c = true <;> simp [hr]
  · intro st ws room hlt hp hl
    constructor <;> simp [connect, hl, hp, hlt]

/-- Witness for the C8 theorem at a concrete input. -/
theorem listener_error_clears_handle_restartable_witness :
    listen_to_redis ⟨[], true, true, true⟩ [.streamError] (fun _ => false) =
      ({ active_connections := [], redis_client := true, pubsub := true,
         listener_task := false }, []) :=
  listener_error_clears_handle_restartable.1 ⟨[], true, true, true⟩ [] (fun _ => false) rfl

/-! ## Claim C9 -/

theorem lookupA_of_mem_wellKeyed (t : ConnTable) (r : RoomId) (s : Finset Nat)
    (hwk : WellKeyed t) (h : (r, s) ∈ t) : lookupA t r = some s := by
  induction t with
  | nil => simp at h
  | cons p rest ih =>
    unfold WellKeyed at hwk
    simp only [List.map_cons, List.nodup_cons] at hwk
    rcases List.mem_cons.mp h with h1 | h1
    · rw [← h1]
      simp [lookupA]
    · have hr : p.1 ≠ r := by
        intro he
        exact hwk.1 (he ▸ List.mem_map.mpr ⟨(r, s), h1, rfl⟩)
      simp only [lookupA, hr, if_neg, not_false_iff]
      exact ih hwk.2 h1

/-- Claim C9: the `debug_connections` endpoint is a read-only
introspection operation — it leaves the manager state untouched and
answers a snapshot pairing each room id with its local connection
count, together with the flag saying whether the bus client is
currently connected. -/
theorem debug_connections_snapshot (st : MState)
    (hwk : WellKeyed st.active_connections) :
    (debug_connections st).1 = st ∧
    (debug_connections st).2.redis_connected = st.redis_client ∧
    (debug_connections st).2.manager_exists = true ∧
    (∀ r n, (r, n) ∈ (debug_connections st).2.rooms ↔
       ∃ s, lookupA st.active_connections r = some s ∧ s.card = n) := by
  refine ⟨rfl, rfl, rfl, ?_⟩
  intro r n
  constructor
  · intro h
    obtain ⟨p, hp, he⟩ := List.mem_map.mp h
    obtain ⟨p1, p2⟩ := p
    obtain ⟨he1, he2⟩ := Prod.mk.injEq .. ▸ he
    refine ⟨p2, ?_, he2⟩
    rw [← he1]
    exact lookupA_of_mem_wellKeyed _ p1 p2 hwk hp
  · rintro ⟨s, hs, rfl⟩
    exact List.mem_map.mpr ⟨(r, s), lookupA_mem _ _ _ hs, rfl⟩

/-- Witness for the C9 theorem at a concrete input. -/
theorem debug_connections_snapshot_witness :
    (debug_connections ⟨[(['r'], {1, 2})], true, true, true⟩).2.redis_connected = true :=
  (debug_connections_snapshot ⟨[(['r'], {1, 2})], true, true, true⟩
    (by simp [WellKeyed])).2.1

/-! ## Claim C10 -/

theorem pyLowerChar_idem (c : Char) : pyLowerChar (pyLowerChar c) = pyLowerChar c := by
  unfold pyLowerChar Char.toLower
  simp only []
  by_cases h : c.toNat ≥ 65 ∧ c.toNat ≤ 90
  · have hv : Nat.isValidChar (c.toNat + 32) := by
      left
      omega
    have ht : (Char.ofNat (c.toNat + 32)).toNat = c.toNat + 32 := by
      rw [Char.ofNat, dif_pos hv]
      rfl
    rw [if_pos h, if_neg]
    omega
  · rw [if_neg h, if_neg h]

theorem pyLower_idem (s : PyStr) : pyLower (pyLower s) = pyLower s := by
  unfold pyLower
  rw [List.map_map]
  exact List.map_congr_left (fun c _ => pyLowerChar_idem c)

/-- Claim C10: the WebSocket endpoint lowercases the path room id
before every manager call, so sessions whose room ids differ only in
letter case are indistinguishable, and the room id it feeds into the
subscription table and the bus channel name is always lowercase. -/
theorem websocket_endpoint_lowercases
    (st : MState) (ws : Nat) (a b : PyStr) (msgs : List Json)
    (subOk pubOk : Bool) (fails : Nat → Bool)
    (h : pyLower a = pyLower b) :
    websocket_endpoint st ws a msgs subOk pubOk fails =
      websocket_endpoint st ws b msgs subOk pubOk fails ∧
    (∀ r, pyLower (endpointRoom r) = endpointRoom r) ∧
    (∀ r, endpointRoom r = pyLower r) := by
  refine ⟨?_, fun r => pyLower_idem r, fun r => rfl⟩
  unfold websocket_endpoint endpointRoom
  rw [h]

/-- Witness for the C10 theorem at a concrete input. -/
theorem websocket_endpoint_lowercases_witness :
    websocket_endpoint ⟨[], false, false, false⟩ 1 ['R'] [] true true (fun _ => false) =
      websocket_endpoint ⟨[], false, false, false⟩ 1 ['r'] [] true true (fun _ => false) :=
  (websocket_endpoint_lowercases ⟨[], false, false, false⟩ 1 ['R'] ['r'] [] true true
    (fun _ => false) (by decide)).1

/-! ## Round-trip of the JSON embedding: digits -/

theorem toNat_ofNat_valid (n : Nat) (h : n.isValidChar) : (Char.ofNat n).toNat = n := by
  rw [Char.ofNat, dif_pos h]
  rfl

theorem digitChar_toNat (n : Nat) (h : n < 10) : (digitChar n).toNat = 48 + n := by
  unfold digitChar
  exact toNat_ofNat_valid _ (Or.inl (by omega))

theorem digitChar_isDigit (n : Nat) (h : n < 10) : isDigitCh (digitChar n) = true := by
  simp [isDigitCh, digitChar_toNat n h]
  omega

theorem natDigits_cons (n : Nat) :
    ∃ c cs, natDigits n = c :: cs ∧ isDigitCh c = true := by
  induction n using Nat.strong_induction_on with
  | _ n IH =>
    by_cases h : n < 10
    · exact ⟨digitChar n, [], by rw [natDigits, dif_pos h], digitChar_isDigit n h⟩
    · obtain ⟨c, cs, hd, hdig⟩ := IH (n / 10) (Nat.div_lt_self (by omega) (by omega))
      refine ⟨c, cs ++ [digitChar (n % 10)], ?_, hdig⟩
      rw [natDigits, dif_neg h, hd]
      simp

theorem natDigits_all_digits (n : Nat) :
    ∀ c ∈ natDigits n, isDigitCh c = true := by
  induction n using Nat.strong_induction_on with
  | _ n IH =>
    by_cases h : n < 10
    · rw [natDigits, dif_pos h]
      intro c hc
      rw [List.mem_singleton.mp hc]
      exact digitChar_isDigit n h
    · rw [natDigits, dif_neg h]
      intro c hc
      rcases List.mem_append.mp hc with hc | hc
      · exact IH (n / 10) (Nat.div_lt_self (by omega) (by omega)) c hc
      · rw [List.mem_singleton.mp hc]
        exact digitChar_isDigit (n % 10) (Nat.mod_lt _ (by omega))

theorem natDigits_foldl (n : Nat) : ∀ acc,
    (natDigits n).foldl (fun a c => a * 10 + (c.toNat - 48)) acc =
      acc * 10 ^ (natDigits n).length + n := by
  induction n using Nat.strong_induction_on with
  | _ n IH =>
    intro acc
    by_cases h : n < 10
    · rw [natDigits, dif_pos h]
      simp [digitChar_toNat n h]
    · rw [natDigits, dif_neg h]
      rw [List.foldl_append, IH (n / 10) (Nat.div_lt_self (by omega) (by omega)) acc]
      simp only [List.foldl_cons, List.foldl_nil, List.length_append, List.length_singleton]
      rw [digitChar_toNat (n % 10) (Nat.mod_lt _ (by omega))]
      rw [pow_succ, show acc * (10 ^ (natDigits (n / 10)).length * 10) =
        acc * 10 ^ (natDigits (n / 10)).length * 10 by ring]
      set q := acc * 10 ^ (natDigits (n / 10)).length
      omega

theorem parseDigitsAux_append (ds : PyStr) : ∀ t acc,
    (∀ c ∈ ds, isDigitCh c = true) → headNotDigit t = true →
    parseDigitsAux (ds ++ t) acc =
      (ds.foldl (fun a c => a * 10 + (c.toNat - 48)) acc, t) := by
  induction ds with
  | nil =>
    intro t acc _ ht
    cases t with
    | nil => rfl
    | cons c r =>
      simp only [headNotDigit] at ht
      have hc : isDigitCh c = false := by
        revert ht
        cases isDigitCh c <;> simp
      simp [parseDigitsAux, hc]
  | cons d ds ih =>
    intro t acc hall ht
    have hd : isDigitCh d = true := hall d (List.mem_cons_self d ds)
    simp only [List.cons_append, parseDigitsAux, hd, if_pos, List.foldl_cons]
    exact ih t _ (fun c hc => hall c (List.mem_cons_of_mem d hc)) ht

theorem parseNat_natDigits (n : Nat) (t : PyStr) (ht : headNotDigit t = true) :
    parseNat (natDigits n ++ t) = some (n, t) := by
  obtain ⟨c, cs, hnd, hdig⟩ := natDigits_cons n
  rw [hnd, List.cons_append]
  simp only [parseNat, hdig, if_pos]
  rw [parseDigitsAux_append cs t (c.toNat - 48)
    (fun x hx => natDigits_all_digits n x (hnd ▸ List.mem_cons_of_mem c hx)) ht]
  have hfold : cs.foldl (fun a c2 => a * 10 + (c2.toNat - 48)) (c.toNat - 48) =
      (natDigits n).foldl (fun a c2 => a * 10 + (c2.toNat - 48)) 0 := by
    rw [hnd, List.foldl_cons]
    norm_num
  rw [hfold, natDigits_foldl n 0]
  norm_num

/-! ## Round-trip of the JSON embedding: whitespace and heads -/

theorem skipWs_ws_append (w : PyStr) (r : PyStr) (hw : ∀ c ∈ w, isWsChar c = true) :
    skipWs (w ++ r) = skipWs r := by
  induction w with
  | nil => rfl
  | cons c cs ih =>
    simp only [skipWs, List.cons_append, List.dropWhile_cons,
      hw c (List.mem_cons_self c cs), if_pos]
    exact ih (fun x hx => hw x (List.mem_cons_of_mem c hx))

theorem skipWs_not_ws (c : Char) (r : PyStr) (hc : isWsChar c = false) :
    skipWs (c :: r) = c :: r := by
  simp [skipWs, List.dropWhile_cons, hc]

/-! ## Round-trip of the JSON embedding: string literals -/

theorem parseHexDigit_hexDigitChar :
    ∀ d, d < 16 → parseHexDigit (hexDigitChar d) = some d := by
  decide

theorem parseStringBody_unicode (c : Char) (t : PyStr) (h : c.toNat < 32) :
    parseStringBody (Char.ofNat 92 :: 'u' :: '0' :: '0' ::
        hexDigitChar (c.toNat / 16) :: hexDigitChar (c.toNat % 16) :: t) =
      (parseStringBody t).map (fun p => (c :: p.1, p.2)) := by
  rw [parseStringBody.eq_def]
  simp only [show (Char.ofNat 92 = Char.ofNat 34) = False by simp, if_false, if_pos rfl,
    if_pos (rfl : ('u' : Char) = 'u')]
  rw [show parseHexDigit '0' = some 0 from by decide]
  rw [parseHexDigit_hexDigitChar (c.toNat / 16) (by omega)]
  rw [parseHexDigit_hexDigitChar (c.toNat % 16) (by omega)]
  simp only []
  have hn : ((0 * 16 + 0) * 16 + c.toNat / 16) * 16 + c.toNat % 16 = c.toNat := by omega
  rw [hn]
  have hv : Nat.isValidChar c.toNat := by
    left
    omega
  rw [dif_pos hv, Char.ofNat_toNat]
  simp

theorem parseStringBody_escapeChar (c : Char) (t : PyStr) :
    parseStringBody (escapeChar c ++ t) =
      (parseStringBody t).map (fun p => (c :: p.1, p.2)) := by
  by_cases h1 : c = Char.ofNat 92
  · subst h1
    rw [escapeChar, if_pos rfl]
    simp only [List.cons_append, List.nil_append]
    rw [parseStringBody.eq_def]
    simp [escCharOf]
  by_cases h2 : c = Char.ofNat 34
  · subst h2
    rw [escapeChar, if_neg h1, if_pos rfl]
    simp only [List.cons_append, List.nil_append]
    rw [parseStringBody.eq_def]
    simp [escCharOf]
  by_cases h3 : c = Char.ofNat 10
  · subst h3
    rw [escapeChar, if_neg h1, if_neg h2, if_pos rfl]
    simp only [List.cons_append, List.nil_append]
    rw [parseStringBody.eq_def]
    simp [escCharOf]
  by_cases h4 : c = Char.ofNat 9
  · subst h4
    rw [escapeChar, if_neg h1, if_neg h2, if_neg h3, if_pos rfl]
    simp only [List.cons_append, List.nil_append]
    rw [parseStringBody.eq_def]
    simp [escCharOf]
  by_cases h5 : c = Char.ofNat 13
  · subst h5
    rw [escapeChar, if_neg h1, if_neg h2, if_neg h3, if_neg h4, if_pos rfl]
    simp only [List.cons_append, List.nil_append]
    rw [parseStringBody.eq_def]
    simp [escCharOf]
  by_cases h6 : c = Char.ofNat 8
  · subst h6
    rw [escapeChar, if_neg h1, if_neg h2, if_neg h3, if_neg h4, if_neg h5, if_pos rfl]
    simp only [List.cons_append, List.nil_append]
    rw [parseStringBody.eq_def]
    simp [escCharOf]
  by_cases h7 : c = Char.ofNat 12
  · subst h7
    rw [escapeChar, if_neg h1, if_neg h2, if_neg h3, if_neg h4, if_neg h5, if_neg h6,
      if_pos rfl]
    simp only [List.cons_append, List.nil_append]
    rw [parseStringBody.eq_def]
    simp [escCharOf]
  by_cases h8 : c.toNat < 32
  · rw [escapeChar, if_neg h1, if_neg h2, if_neg h3, if_neg h4, if_neg h5, if_neg h6,
      if_neg h7, if_pos h8]
    simp only [List.cons_append, List.nil_append]
    exact parseStringBody_unicode c t h8
  · rw [escapeChar, if_neg h1, if_neg h2, if_neg h3, if_neg h4, if_neg h5, if_neg h6,
      if_neg h7, if_neg h8]
    simp only [List.cons_append, List.nil_append]
    rw [parseStringBody.eq_def]
    simp [h2, h1, h8]

theorem parseStringBody_escData (s : PyStr) : ∀ t,
    parseStringBody (escData s ++ (Char.ofNat 34 :: t)) = some (s, t) := by
  induction s with
  | nil =>
    intro t
    rw [escData, List.nil_append, parseStringBody.eq_def]
    simp
  | cons c cs ih =>
    intro t
    rw [escData, List.append_assoc, parseStringBody_escapeChar, ih t]
    rfl

theorem dumpsStr_append (s : PyStr) (t : PyStr) :
    dumpsStr s ++ t = Char.ofNat 34 :: (escData s ++ (Char.ofNat 34 :: t)) := by
  rw [dumpsStr]
  simp

/-! ## Round-trip of the JSON embedding: head characters and sizes -/

theorem char_ne_of_toNat (a b : Char) (h : a.toNat ≠ b.toNat) : a ≠ b :=
  fun he => h (congrArg Char.toNat he)

theorem isDigitCh_not_ws (c : Char) (h : isDigitCh c = true) : isWsChar c = false := by
  simp only [isDigitCh, Bool.and_eq_true, decide_eq_true_eq] at h
  simp only [isWsChar]
  simp only [Bool.or_eq_false_iff, decide_eq_false_iff_not]
  omega

theorem isDigitCh_ne_rbracket (c : Char) (h : isDigitCh c = true) : c ≠ ']' := by
  simp only [isDigitCh, Bool.and_eq_true, decide_eq_true_eq] at h
  exact char_ne_of_toNat c ']' (by rw [show (']' : Char).toNat = 93 from rfl]; omega)

theorem dumps_head (j : Json) :
    ∃ c cs, dumps j = c :: cs ∧ isWsChar c = false ∧ c ≠ ']' := by
  cases j with
  | null =>
    refine ⟨'n', _, rfl, by decide, by decide⟩
  | bool b =>
    cases b
    · refine ⟨'f', _, rfl, by decide, by decide⟩
    · refine ⟨'t', _, rfl, by decide, by decide⟩
  | num n =>
    show ∃ c cs, dumpsInt n = c :: cs ∧ _
    unfold dumpsInt
    by_cases h : n < 0
    · refine ⟨Char.ofNat 45, _, by rw [if_pos h], by decide, by decide⟩
    · rw [if_neg h]
      obtain ⟨c, cs, hd, hdig⟩ := natDigits_cons n.toNat
      refine ⟨c, cs, hd, isDigitCh_not_ws c hdig, isDigitCh_ne_rbracket c hdig⟩
  | str s =>
    refine ⟨Char.ofNat 34, _, rfl, by decide, by decide⟩
  | arr xs =>
    cases xs
    · refine ⟨'[', _, rfl, by decide, by decide⟩
    · refine ⟨'[', _, rfl, by decide, by decide⟩
  | obj kvs =>
    cases kvs
    · refine ⟨'{', _, rfl, by decide, by decide⟩
    · refine ⟨'{', _, rfl, by decide, by decide⟩

theorem dumpsInt_ne_nil (n : Int) : dumpsInt n ≠ [] := by
  unfold dumpsInt
  by_cases h : n < 0
  · simp [h]
  · rw [if_neg h]
    obtain ⟨c, cs, hd, _⟩ := natDigits_cons n.toNat
    simp [hd]

theorem dumpsKV_length (kv : PyStr × Json) :
    (dumpsKV kv).length = (dumpsStr kv.1).length + 2 + (dumps kv.2).length := by
  obtain ⟨k, v⟩ := kv
  simp [dumpsKV]
  omega

mutual

theorem sizeV_le_len (j : Json) : sizeV j ≤ (dumps j).length := by
  cases j with
  | null => simp [sizeV, dumps]
  | bool b => cases b <;> simp [sizeV, dumps]
  | num n =>
    have h := dumpsInt_ne_nil n
    have : 1 ≤ (dumpsInt n).length := by
      cases hd : dumpsInt n
      · exact absurd hd h
      · simp
    simpa [sizeV, dumps] using this
  | str s => simp [sizeV, dumps, dumpsStr]
  | arr xs =>
    cases xs with
    | nil => simp [sizeV, sizeL, dumps]
    | cons x xs =>
      have h1 := sizeV_le_len x
      have h2 := sizeL_le_len xs
      simp only [sizeV, sizeL, dumps, List.length_cons, List.length_append,
        List.length_singleton]
      omega
  | obj kvs =>
    cases kvs with
    | nil => simp [sizeV, sizeM, dumps]
    | cons kv kvs =>
      have h1 := sizeV_le_len kv.2
      have h2 := sizeM_le_len kvs
      have h3 := dumpsKV_length kv
      simp only [sizeV, sizeM, dumps, List.length_cons, List.length_append,
        List.length_singleton]
      omega

theorem sizeL_le_len (xs : List Json) : sizeL xs ≤ (dumpsArrRest xs).length := by
  cases xs with
  | nil => simp [sizeL, dumpsArrRest]
  | cons x xs =>
    have h1 := sizeV_le_len x
    have h2 := sizeL_le_len xs
    simp only [sizeL, dumpsArrRest, List.length_cons, List.length_append]
    omega

theorem sizeM_le_len (kvs : List (PyStr × Json)) :
    sizeM kvs ≤ (dumpsObjRest kvs).length := by
  cases kvs with
  | nil => simp [sizeM, dumpsObjRest]
  | cons kv kvs =>
    have h1 := sizeV_le_len kv.2
    have h2 := sizeM_le_len kvs
    have h3 := dumpsKV_length kv
    simp only [sizeM, dumpsObjRest, List.length_cons, List.length_append]
    omega

end

/-! ## Round-trip of the JSON embedding: the parser on printed values -/

theorem isDigitCh_bounds (c : Char) (h : isDigitCh c = true) :
    48 ≤ c.toNat ∧ c.toNat ≤ 57 := by
  simpa [isDigitCh] using h

theorem sizeV_pos (j : Json) : 1 ≤ sizeV j := by
  cases j <;> simp [sizeV]

theorem numOk_of_head (j : Json) (t : PyStr) (h : headNotDigit t = true) : NumOk j t := by
  cases j <;> first | exact h | trivial

theorem headNotDigit_arrTail (xs : List Json) (t : PyStr) :
    headNotDigit (dumpsArrRest xs ++ (']' :: t)) = true := by
  cases xs with
  | nil => rfl
  | cons y ys => rfl

theorem headNotDigit_objTail (kvs : List (PyStr × Json)) (t : PyStr) :
    headNotDigit (dumpsObjRest kvs ++ ('}' :: t)) = true := by
  cases kvs with
  | nil => rfl
  | cons kv2 kvs2 => rfl

theorem pv_null (fuel : Nat) (w t : PyStr) (hw : ∀ c ∈ w, isWsChar c = true) :
    parseValue (fuel + 1) (w ++ (dumps .null ++ t)) = some (.null, t) := by
  rw [parseValue.eq_def]
  rw [show dumps .null = ['n', 'u', 'l', 'l'] from rfl]
  simp only [List.cons_append, List.nil_append]
  rw [skipWs_ws_append w _ hw, skipWs_not_ws 'n' _ (by decide)]
  simp

theorem pv_bool (fuel : Nat) (w t : PyStr) (b : Bool) (hw : ∀ c ∈ w, isWsChar c = true) :
    parseValue (fuel + 1) (w ++ (dumps (.bool b) ++ t)) = some (.bool b, t) := by
  cases b
  · rw [parseValue.eq_def]
    rw [show dumps (.bool false) = ['f', 'a', 'l', 's', 'e'] from rfl]
    simp only [List.cons_append, List.nil_append]
    rw [skipWs_ws_append w _ hw, skipWs_not_ws 'f' _ (by decide)]
    simp
  · rw [parseValue.eq_def]
    rw [show dumps (.bool true) = ['t', 'r', 'u', 'e'] from rfl]
    simp only [List.cons_append, List.nil_append]
    rw [skipWs_ws_append w _ hw, skipWs_not_ws 't' _ (by decide)]
    simp

theorem pv_str (fuel : Nat) (w t s : PyStr) (hw : ∀ c ∈ w, isWsChar c = true) :
    parseValue (fuel + 1) (w ++ (dumps (.str s) ++ t)) = some (.str s, t) := by
  rw [show dumps (.str s) = dumpsStr s from rfl, dumpsStr_append]
  rw [parseValue.eq_2]
  rw [skipWs_ws_append w _ hw, skipWs_not_ws _ _ (by decide)]
  simp only [show (Char.ofNat 34 = 'n') = False by simp,
    show (Char.ofNat 34 = 't') = False by simp,
    show (Char.ofNat 34 = 'f') = False by simp, if_false, if_pos rfl]
  rw [parseStringBody_escData s t]
  rfl

theorem pv_num (fuel : Nat) (w t : PyStr) (n : Int) (hw : ∀ c ∈ w, isWsChar c = true)
    (ht : headNotDigit t = true) :
    parseValue (fuel + 1) (w ++ (dumps (.num n) ++ t)) = some (.num n, t) := by
  rw [show dumps (.num n) = dumpsInt n from rfl]
  unfold dumpsInt
  by_cases h : n < 0
  · rw [if_pos h]
    simp only [List.cons_append]
    rw [parseValue.eq_2, skipWs_ws_append w _ hw, skipWs_not_ws _ _ (by decide)]
    simp only [show (Char.ofNat 45 = 'n') = False by simp,
      show (Char.ofNat 45 = 't') = False by simp,
      show (Char.ofNat 45 = 'f') = False by simp,
      show (Char.ofNat 45 = Char.ofNat 34) = False by simp,
      show (Char.ofNat 45 = '[') = False by simp,
      show (Char.ofNat 45 = '{') = False by simp, if_false, if_pos rfl]
    rw [parseNat_natDigits n.natAbs t ht]
    show some (Json.num (-(n.natAbs : Int)), t) = some (Json.num n, t)
    rw [show -((n.natAbs : Nat) : Int) = n from by omega]
  · rw [if_neg h]
    obtain ⟨c, cs, hd, hdig⟩ := natDigits_cons n.toNat
    obtain ⟨hb1, hb2⟩ := isDigitCh_bounds c hdig
    rw [hd]
    simp only [List.cons_append]
    rw [parseValue.eq_2, skipWs_ws_append w _ hw, skipWs_not_ws c _ (isDigitCh_not_ws c hdig)]
    have hne1 : ¬ c = 'n' :=
      char_ne_of_toNat c 'n' (by rw [show ('n' : Char).toNat = 110 from rfl]; omega)
    have hne2 : ¬ c = 't' :=
      char_ne_of_toNat c 't' (by rw [show ('t' : Char).toNat = 116 from rfl]; omega)
    have hne3 : ¬ c = 'f' :=
      char_ne_of_toNat c 'f' (by rw [show ('f' : Char).toNat = 102 from rfl]; omega)
    have hne4 : ¬ c = Char.ofNat 34 :=
      char_ne_of_toNat c (Char.ofNat 34)
        (by rw [show (Char.ofNat 34).toNat = 34 from rfl]; omega)
    have hne5 : ¬ c = '[' :=
      char_ne_of_toNat c '[' (by rw [show ('[' : Char).toNat = 91 from rfl]; omega)
    have hne6 : ¬ c = '{' :=
      char_ne_of_toNat c '{' (by rw [show ('{' : Char).toNat = 123 from rfl]; omega)
    have hne7 : ¬ c = Char.ofNat 45 :=
      char_ne_of_toNat c (Char.ofNat 45)
        (by rw [show (Char.ofNat 45).toNat = 45 from rfl]; omega)
    simp only [hne1, hne2, hne3, hne4, hne5, hne6, hne7, if_false, hdig, if_true]
    rw [show c :: (cs ++ t) = natDigits n.toNat ++ t from by rw [hd]; simp]
    rw [parseNat_natDigits n.toNat t ht]
    show some (Json.num ((n.toNat : Nat) : Int), t) = some (Json.num n, t)
    rw [show ((n.toNat : Nat) : Int) = n from by omega]

theorem pv_arr_nil (fuel : Nat) (w t : PyStr) (hw : ∀ c ∈ w, isWsChar c = true) :
    parseValue (fuel + 1) (w ++ (dumps (.arr []) ++ t)) = some (.arr [], t) := by
  rw [show dumps (.arr []) = ['[', ']'] from rfl]
  simp only [List.cons_append, List.nil_append]
  rw [parseValue.eq_2, skipWs_ws_append w _ hw, skipWs_not_ws '[' _ (by decide)]
  simp only [show (('[' : Char) = 'n') = False by simp,
    show (('[' : Char) = 't') = False by simp,
    show (('[' : Char) = 'f') = False by simp,
    show (('[' : Char) = Char.ofNat 34) = False by simp, if_false, if_pos rfl]
  rw [skipWs_not_ws ']' _ (by decide)]
  simp

theorem pv_arr_cons (fuel : Nat) (w t : PyStr) (x : Json) (xs : List Json)
    (hw : ∀ c ∈ w, isWsChar c = true)
    (hitems : parseItems fuel (dumps x ++ (dumpsArrRest xs ++ (']' :: t)))
      = some (x :: xs, t)) :
    parseValue (fuel + 1) (w ++ (dumps (.arr (x :: xs)) ++ t)) = some (.arr (x :: xs), t) := by
  rw [show dumps (.arr (x :: xs)) = '[' :: (dumps x ++ dumpsArrRest xs) ++ [']'] from rfl]
  rw [show ('[' :: (dumps x ++ dumpsArrRest xs) ++ [']']) ++ t
      = '[' :: (dumps x ++ (dumpsArrRest xs ++ (']' :: t))) from by simp]
  rw [parseValue.eq_2, skipWs_ws_append w _ hw, skipWs_not_ws '[' _ (by decide)]
  simp only [show (('[' : Char) = 'n') = False by simp,
    show (('[' : Char) = 't') = False by simp,
    show (('[' : Char) = 'f') = False by simp,
    show (('[' : Char) = Char.ofNat 34) = False by simp, if_false, if_pos rfl, if_true]
  obtain ⟨c, cs, hd, hnws, hnrb⟩ := dumps_head x
  rw [show dumps x ++ (dumpsArrRest xs ++ (']' :: t))
      = c :: (cs ++ (dumpsArrRest xs ++ (']' :: t))) from by rw [hd]; simp]
  rw [skipWs_not_ws c _ hnws]
  simp only [hnrb, if_false]
  rw [show c :: (cs ++ (dumpsArrRest xs ++ (']' :: t)))
      = dumps x ++ (dumpsArrRest xs ++ (']' :: t)) from by rw [hd]; simp]
  rw [hitems]
  rfl

theorem pv_obj_nil (fuel : Nat) (w t : PyStr) (hw : ∀ c ∈ w, isWsChar c = true) :
    parseValue (fuel + 1) (w ++ (dumps (.obj []) ++ t)) = some (.obj [], t) := by
  rw [show dumps (.obj []) = ['{', '}'] from rfl]
  simp only [List.cons_append, List.nil_append]
  rw [parseValue.eq_2, skipWs_ws_append w _ hw, skipWs_not_ws '{' _ (by decide)]
  simp only [show (('{' : Char) = 'n') = False by simp,
    show (('{' : Char) = 't') = False by simp,
    show (('{' : Char) = 'f') = False by simp,
    show (('{' : Char) = Char.ofNat 34) = False by simp,
    show (('{' : Char) = '[') = False by simp, if_false, if_pos rfl]
  rw [skipWs_not_ws '}' _ (by decide)]
  simp

theorem pv_obj_cons (fuel : Nat) (w t : PyStr) (kv : PyStr × Json)
    (kvs : List (PyStr × Json)) (hw : ∀ c ∈ w, isWsChar c = true)
    (hmembers : parseMembers fuel (dumpsKV kv ++ (dumpsObjRest kvs ++ ('}' :: t)))
      = some (kv :: kvs, t)) :
    parseValue (fuel + 1) (w ++ (dumps (.obj (kv :: kvs)) ++ t))
      = some (.obj (kv :: kvs), t) := by
  rw [show dumps (.obj (kv :: kvs)) = '{' :: (dumpsKV kv ++ dumpsObjRest kvs) ++ ['}']
      from rfl]
  rw [show ('{' :: (dumpsKV kv ++ dumpsObjRest kvs) ++ ['}']) ++ t
      = '{' :: (dumpsKV kv ++ (dumpsObjRest kvs ++ ('}' :: t))) from by simp]
  rw [parseValue.eq_2, skipWs_ws_append w _ hw, skipWs_not_ws '{' _ (by decide)]
  simp only [show (('{' : Char) = 'n') = False by simp,
    show (('{' : Char) = 't') = False by simp,
    show (('{' : Char) = 'f') = False by simp,
    show (('{' : Char) = Char.ofNat 34) = False by simp,
    show (('{' : Char) = '[') = False by simp, if_false, if_pos rfl]
  obtain ⟨k, v⟩ := kv
  rw [show dumpsKV (k, v) ++ (dumpsObjRest kvs ++ ('}' :: t))
      = Char.ofNat 34 :: (escData k ++ (Char.ofNat 34 ::
          (':' :: ' ' :: (dumps v ++ (dumpsObjRest kvs ++ ('}' :: t))))))
      from by simp [dumpsKV, dumpsStr]]
  rw [skipWs_not_ws _ _ (by decide)]
  simp only [show ((Char.ofNat 34 : Char) = '}') = False by simp, if_false]
  rw [show Char.ofNat 34 :: (escData k ++ (Char.ofNat 34 ::
        (':' :: ' ' :: (dumps v ++ (dumpsObjRest kvs ++ ('}' :: t))))))
      = dumpsKV (k, v) ++ (dumpsObjRest kvs ++ ('}' :: t)) from by simp [dumpsKV, dumpsStr]]
  rw [hmembers]
  rfl

theorem pi_step (fuel : Nat) (w : PyStr) (x : Json) (xs : List Json) (t : PyStr)
    (hval : parseValue fuel (w ++ (dumps x ++ (dumpsArrRest xs ++ (']' :: t))))
      = some (x, dumpsArrRest xs ++ (']' :: t)))
    (hrest : ∀ y ys, xs = y :: ys →
      parseItems fuel (' ' :: (dumps y ++ (dumpsArrRest ys ++ (']' :: t))))
        = some (xs, t)) :
    parseItems (fuel + 1) (w ++ (dumps x ++ (dumpsArrRest xs ++ (']' :: t))))
      = some (x :: xs, t) := by
  rw [parseItems.eq_2, hval]
  cases xs with
  | nil =>
    rw [show dumpsArrRest ([] : List Json) = [] from rfl, List.nil_append]
    simp [skipWs_not_ws ']' t (by decide)]
  | cons y ys =>
    rw [show dumpsArrRest (y :: ys) ++ (']' :: t)
        = ',' :: ' ' :: (dumps y ++ (dumpsArrRest ys ++ (']' :: t))) from by
      simp [dumpsArrRest]]
    simp only [skipWs_not_ws ',' (' ' :: (dumps y ++ (dumpsArrRest ys ++ (']' :: t))))
      (by decide)]
    rw [hrest y ys rfl]
    rfl

theorem pm_step (fuel : Nat) (w : PyStr) (kv : PyStr × Json)
    (kvs : List (PyStr × Json)) (t : PyStr) (hw : ∀ c ∈ w, isWsChar c = true)
    (hval : parseValue fuel (' ' :: (dumps kv.2 ++ (dumpsObjRest kvs ++ ('}' :: t))))
      = some (kv.2, dumpsObjRest kvs ++ ('}' :: t)))
    (hrest : ∀ kv2 kvs2, kvs = kv2 :: kvs2 →
      parseMembers fuel (' ' :: (dumpsKV kv2 ++ (dumpsObjRest kvs2 ++ ('}' :: t))))
        = some (kvs, t)) :
    parseMembers (fuel + 1) (w ++ (dumpsKV kv ++ (dumpsObjRest kvs ++ ('}' :: t))))
      = some (kv :: kvs, t) := by
  obtain ⟨k, v⟩ := kv
  rw [parseMembers.eq_2]
  rw [show dumpsKV (k, v) ++ (dumpsObjRest kvs ++ ('}' :: t))
      = Char.ofNat 34 :: (escData k ++ (Char.ofNat 34 ::
          (':' :: ' ' :: (dumps v ++ (dumpsObjRest kvs ++ ('}' :: t))))))
      from by simp [dumpsKV, dumpsStr]]
  rw [skipWs_ws_append w _ hw, skipWs_not_ws _ _ (by decide)]
  simp only [if_pos rfl]
  rw [parseStringBody_escData k]
  simp only [skipWs_not_ws ':'
    (' ' :: (dumps v ++ (dumpsObjRest kvs ++ ('}' :: t)))) (by decide)]
  rw [hval]
  cases kvs with
  | nil =>
    rw [show dumpsObjRest ([] : List (PyStr × Json)) = [] from rfl, List.nil_append]
    simp [skipWs_not_ws '}' t (by decide)]
  | cons kv2 kvs2 =>
    rw [show dumpsObjRest (kv2 :: kvs2) ++ ('}' :: t)
        = ',' :: ' ' :: (dumpsKV kv2 ++ (dumpsObjRest kvs2 ++ ('}' :: t))) from by
      simp [dumpsObjRest]]
    simp only [skipWs_not_ws ','
      (' ' :: (dumpsKV kv2 ++ (dumpsObjRest kvs2 ++ ('}' :: t)))) (by decide)]
    rw [hrest kv2 kvs2 rfl]
    rfl

theorem parse_dumps (fuel : Nat) :
    (∀ w j t, (∀ c ∈ w, isWsChar c = true) → sizeV j ≤ fuel → NumOk j t →
      parseValue fuel (w ++ (dumps j ++ t)) = some (j, t)) ∧
    (∀ w x xs t, (∀ c ∈ w, isWsChar c = true) → sizeL (x :: xs) ≤ fuel →
      parseItems fuel (w ++ (dumps x ++ (dumpsArrRest xs ++ (']' :: t))))
        = some (x :: xs, t)) ∧
    (∀ w kv kvs t, (∀ c ∈ w, isWsChar c = true) → sizeM (kv :: kvs) ≤ fuel →
      parseMembers fuel (w ++ (dumpsKV kv ++ (dumpsObjRest kvs ++ ('}' :: t))))
        = some (kv :: kvs, t)) := by
  induction fuel with
  | zero =>
    refine ⟨?_, ?_, ?_⟩
    · intro w j t _ hsz _
      exact absurd hsz (by have := sizeV_pos j; omega)
    · intro w x xs t _ hsz
      exact absurd hsz (by simp [sizeL])
    · intro w kv kvs t _ hsz
      exact absurd hsz (by simp [sizeM])
  | succ fuel ih =>
    obtain ⟨ihV, ihI, ihM⟩ := ih
    refine ⟨?_, ?_, ?_⟩
    · intro w j t hw hsz hnum
      cases j with
      | null => exact pv_null fuel w t hw
      | bool b => exact pv_bool fuel w t b hw
      | num n => exact pv_num fuel w t n hw hnum
      | str s => exact pv_str fuel w t s hw
      | arr xs =>
        cases xs with
        | nil => exact pv_arr_nil fuel w t hw
        | cons x xs =>
          refine pv_arr_cons fuel w t x xs hw ?_
          have hb : sizeL (x :: xs) ≤ fuel := by
            simp only [sizeV] at hsz
            omega
          have := ihI [] x xs t (by simp) hb
          simpa using this
      | obj kvs =>
        cases kvs with
        | nil => exact pv_obj_nil fuel w t hw
        | cons kv kvs =>
          refine pv_obj_cons fuel w t kv kvs hw ?_
          have hb : sizeM (kv :: kvs) ≤ fuel := by
            simp only [sizeV] at hsz
            omega
          have := ihM [] kv kvs t (by simp) hb
          simpa using this
    · intro w x xs t hw hsz
      have hszx : sizeV x ≤ fuel := by
        simp only [sizeL] at hsz
        omega
      refine pi_step fuel w x xs t ?_ ?_
      · exact ihV w x (dumpsArrRest xs ++ (']' :: t)) hw hszx
          (numOk_of_head _ _ (headNotDigit_arrTail xs t))
      · intro y ys hys
        subst hys
        have hszr : sizeL (y :: ys) ≤ fuel := by
          simp only [sizeL] at hsz ⊢
          omega
        have := ihI [' '] y ys t (by decide) hszr
        simpa using this
    · intro w kv kvs t hw hsz
      have hszv : sizeV kv.2 ≤ fuel := by
        simp only [sizeM] at hsz
        omega
      refine pm_step fuel w kv kvs t hw ?_ ?_
      · have := ihV [' '] kv.2 (dumpsObjRest kvs ++ ('}' :: t)) (by decide) hszv
          (numOk_of_head _ _ (headNotDigit_objTail kvs t))
        simpa using this
      · intro kv2 kvs2 hk
        subst hk
        have hszr : sizeM (kv2 :: kvs2) ≤ fuel := by
          simp only [sizeM] at hsz ⊢
          omega
        have := ihM [' '] kv2 kvs2 t (by decide) hszr
        simpa using this

theorem loads_dumps (j : Json) : loads (dumps j) = some j := by
  unfold loads
  have h := (parse_dumps ((dumps j).length + 1)).1 [] j [] (by simp)
    (le_trans (sizeV_le_len j) (by omega)) (numOk_of_head j [] rfl)
  rw [List.nil_append, List.append_nil] at h
  rw [h]
  rfl

/-! ## Claim C6 -/

/-- Claim C6: the wire contract round-trips exactly — the publish
channel is the literal prefix `"room:"` concatenated with the room id
and the Listener Task's prefix-stripping recovers the room id
unchanged, and serializing any broadcast payload with `dumps` and
deserializing it with `loads` yields the payload itself, with no
additional envelope. -/
theorem wire_contract_roundtrip :
    (∀ rid : RoomId, startsWithRoom (roomChannel rid) = true ∧
       (roomChannel rid).drop 5 = rid) ∧
    (∀ j : Json, loads (dumps j) = some j) :=
  ⟨fun _ => ⟨rfl, rfl⟩, loads_dumps⟩

/-! ## Claim C1 -/

/-- Claim C1: when the bus is connected and the publish succeeds,
`broadcast_to_room` performs no direct local delivery — it leaves the
state unchanged, pushes to no local handle, and only publishes the
serialized payload on the room channel; the Listener Task receiving
that very publish then delivers exactly one copy of the payload to
each of the locally registered handles of the room (no duplicates, no
drops) and to no other handle. -/
theorem broadcast_connected_exactly_once_via_listener
    (st : MState) (room : RoomId) (msg : Json) (s : Finset Nat)
    (hredis : st.redis_client = true)
    (hs : lookupA st.active_connections room = some s) :
    (broadcast_to_room st room msg true (fun _ => false)).state = st ∧
    (broadcast_to_room st room msg true (fun _ => false)).attempts = [] ∧
    (broadcast_to_room st room msg true (fun _ => false)).published
      = some (roomChannel room, dumps msg) ∧
    (∀ p ∈ (handleMessage st (roomChannel room) (dumps msg) (fun _ => false)).2,
       p.payload = msg ∧ p.ok = true ∧ p.handle ∈ s) ∧
    (∀ h2, ((handleMessage st (roomChannel room) (dumps msg) (fun _ => false)).2.map
        Push.handle).count h2 = if h2 ∈ s then 1 else 0) := by
  have hl : handleMessage st (roomChannel room) (dumps msg) (fun _ => false)
      = ((broadcastLocally st room msg (fun _ => false)).state,
         (broadcastLocally st room msg (fun _ => false)).attempts) := by
    unfold handleMessage
    rw [show startsWithRoom (roomChannel room) = true from rfl]
    rw [show (roomChannel room).drop 5 = room from rfl]
    rw [loads_dumps msg]
    simp
  refine ⟨by simp [broadcast_to_room, hredis], by simp [broadcast_to_room, hredis],
    by simp [broadcast_to_room, hredis], ?_, ?_⟩
  · intro p hp
    rw [hl] at hp
    rw [broadcastLocally_attempts st room msg (fun _ => false) s hs] at hp
    obtain ⟨h2, hmem, rfl⟩ := List.mem_map.mp hp
    exact ⟨rfl, rfl, (Finset.mem_sort _).mp hmem⟩
  · intro h2
    rw [hl]
    exact broadcastLocally_count st room msg (fun _ => false) s hs h2

/-- Witness for the C1 theorem at a concrete input. -/
theorem broadcast_connected_exactly_once_via_listener_witness :
    (broadcast_to_room ⟨[(['r'], {1})], true, true, true⟩ ['r'] .null true
      (fun _ => false)).published = some (roomChannel ['r'], dumps .null) :=
  (broadcast_connected_exactly_once_via_listener ⟨[(['r'], {1})], true, true, true⟩
    ['r'] .null {1} rfl (by decide)).2.2.1

end TasteThreads
